import Mathlib

/-!
Verification of the fitness-rl-optimizer learning core.

Shallow embedding conventions:
* Python floats are modelled as exact rationals (`ℚ`).
* A Python `dict.get(k, default)` over an optional scenario field is modelled by an
  `Option` field read with `Option.getD`.
* `defaultdict(float)` / `defaultdict(int)` whose key-materialization is observable
  (the Q-table, whose size is reported) are modelled as insertion-ordered association
  lists; the bandit's dictionaries, whose key set is never observable, are modelled
  as total functions with default 0.
* Calls that can raise in Python (`max` on an empty sequence, `random.choice` on an
  empty list, `math.log` on a nonpositive argument, division by zero) are modelled
  with `Except` / `Option` results.
* `random.random()`, `random.choice` and the UCB tie-break are modelled by explicit
  draw parameters (a rational draw and index draws), quantified in the theorems.
-/

/-- A user scenario (`workout_scenarios.json` record).  `good_categories` and
`bad_categories` are read with `scenario.get(key, [])` in the source, hence optional. -/
structure Scenario where
  fitness_level : String
  time_available : ℚ
  best_category : String
  good_categories : Option (List String)
  bad_categories : Option (List String)
deriving DecidableEq, Repr

/-- An exercise record as produced by `WorkoutAgent.select_exercise` and extended by
`IntensityAgent.adjust_intensity` (which adds the `adjusted_difficulty` key). -/
structure Exercise where
  category : String
  difficulty : String
  name : String
  estimated_time : ℚ
  adjusted_difficulty : Option String
deriving DecidableEq, Repr

/-- Helper for Python `str.title()`: a letter is uppercased when the preceding
character is not a letter, lowercased otherwise. -/
def titleGo : List Char → Bool → List Char
  | [], _ => []
  | c :: cs, prevAlpha =>
    (if prevAlpha then c.toLower else c.toUpper) :: titleGo cs c.isAlpha

/-- Python `str.title()`. -/
def pythonTitle (s : String) : String :=
  ⟨titleGo s.data false⟩

/-- `reward_calculator.compute_category_reward`: match against best, then good, then
bad categories, else neutral. -/
def compute_category_reward (scenario : Scenario) (chosen_category : String) : ℚ :=
  if chosen_category = scenario.best_category then 1
  else if chosen_category ∈ scenario.good_categories.getD [] then 1/2
  else if chosen_category ∈ scenario.bad_categories.getD [] then -(1/5)
  else 0

/-- `reward_calculator.compute_workout_quality`, translated as written in the source:
the goal-alignment `if/elif` sits at the same indentation as the `for` loop, so after
the loop only the *last* exercise's category is tested (once). -/
def compute_workout_quality (exercises_selected : List Exercise) (scenario : Scenario) : ℚ :=
  if h : exercises_selected = [] then 0
  else
    let exercise_categories := exercises_selected.map Exercise.category
    let unique_types : ℕ := exercise_categories.dedup.length
    let variety_score : ℚ := (unique_types : ℚ) * (3/10)
    let estimated_time : ℚ := (exercises_selected.length : ℚ) * 15
    let time_score : ℚ :=
      if estimated_time ≤ scenario.time_available then 1/2 else -(3/10)
    let category := (exercises_selected.getLast h).category
    let goal_alignment : ℚ :=
      if category = scenario.best_category then 2/5
      else if category ∈ scenario.good_categories.getD [] then 1/5
      else 0
    variety_score + time_score + goal_alignment

/-- The workout-quality scorer as the spec and claim C1 state it: the goal-alignment
bonus accumulates 0.4 per exercise matching the best category and 0.2 per exercise
matching a good category (per-exercise accumulation, the documented intent). -/
def compute_workout_quality_claimed (exercises_selected : List Exercise) (scenario : Scenario) : ℚ :=
  if exercises_selected = [] then 0
  else
    let exercise_categories := exercises_selected.map Exercise.category
    let variety_score : ℚ := (exercise_categories.dedup.length : ℚ) * (3/10)
    let time_score : ℚ :=
      if (exercises_selected.length : ℚ) * 15 ≤ scenario.time_available then 1/2 else -(3/10)
    let goal_alignment : ℚ :=
      (exercise_categories.map fun category =>
        if category = scenario.best_category then (2:ℚ)/5
        else if category ∈ scenario.good_categories.getD [] then 1/5
        else 0).sum
    variety_score + time_score + goal_alignment

/-- `reward_calculator.get_intensity_level`. -/
def get_intensity_level (avg_reward : ℚ) : String :=
  if avg_reward > 7/10 then "high"
  else if avg_reward > 3/10 then "medium"
  else "low"

/-- `reward_calculator.get_time_bucket`. -/
def get_time_bucket (exercises_count : ℕ) (time_available : ℚ) : String :=
  let estimated_time_used : ℚ := (exercises_count : ℚ) * 15
  let time_remaining := time_available - estimated_time_used
  if time_remaining > 30 then "plenty"
  else if time_remaining > 15 then "medium"
  else "limited"

/-- `reward_calculator.get_fitness_level_bucket`. -/
def get_fitness_level_bucket (fitness_level : String) : String :=
  fitness_level.toLower

/-- `WorkoutAgent.select_exercise`. -/
def select_exercise (category : String) (fitness_level : String) : Exercise :=
  { category := category
    difficulty := fitness_level
    name := pythonTitle category ++ " Exercise"
    estimated_time := 15
    adjusted_difficulty := none }

/-- `IntensityAgent.adjust_intensity`. -/
def adjust_intensity (exercise : Exercise) (target_level : String) : Exercise :=
  { exercise with adjusted_difficulty := some target_level }

/-- `IntensityAgent.get_intensity_recommendation`: demote one tier once 4 or more
exercises have been added (`levels.get(fitness_level, fitness_level)`). -/
def get_intensity_recommendation (fitness_level : String) (exercises_count : ℕ) : String :=
  if exercises_count ≥ 4 then
    if fitness_level = "advanced" then "intermediate"
    else if fitness_level = "intermediate" then "beginner"
    else if fitness_level = "beginner" then "beginner"
    else fitness_level
  else fitness_level

/-- Concrete input exhibiting the goal-alignment defect of
`compute_workout_quality`: two best-category exercises. -/
def bugExercises : List Exercise :=
  [select_exercise "strength" "intermediate", select_exercise "strength" "intermediate"]

/-- Scenario for the goal-alignment defect input. -/
def bugScenario : Scenario :=
  { fitness_level := "intermediate"
    time_available := 60
    best_category := "strength"
    good_categories := some []
    bad_categories := some [] }

/-- C1: the source computes `0.3*1 + 0.5 + 0.4 = 1.2` on two best-category
exercises (the goal bonus is awarded once, for the last exercise only), while the
claimed per-exercise accumulation gives `0.3*1 + 0.5 + 0.4*2 = 1.6`; the two
disagree, so the code contradicts its documented intent. -/
theorem compute_workout_quality_goal_alignment_bug :
    compute_workout_quality bugExercises bugScenario = 6/5 ∧
    compute_workout_quality_claimed bugExercises bugScenario = 8/5 ∧
    compute_workout_quality bugExercises bugScenario ≠
      compute_workout_quality_claimed bugExercises bugScenario := by
  have h1 : compute_workout_quality bugExercises bugScenario = 6/5 := by
    simp [compute_workout_quality, bugExercises, bugScenario, select_exercise]
    norm_num
  have h2 : compute_workout_quality_claimed bugExercises bugScenario = 8/5 := by
    simp [compute_workout_quality_claimed, bugExercises, bugScenario, select_exercise]
    norm_num
  refine ⟨h1, h2, ?_⟩
  rw [h1, h2]
  norm_num

/-- C10: `compute_category_reward` tests membership in priority order
best > good > bad (the best category wins even when it also appears in the good or
bad lists, a non-best good category wins over the bad list), and missing
`good_categories` / `bad_categories` keys behave exactly like empty lists. -/
theorem compute_category_reward_priority (s : Scenario) (c : String) :
    (c = s.best_category → compute_category_reward s c = 1) ∧
    (c ≠ s.best_category → c ∈ s.good_categories.getD [] →
      compute_category_reward s c = 1/2) ∧
    compute_category_reward { s with good_categories := none, bad_categories := none } c =
      compute_category_reward { s with good_categories := some [], bad_categories := some [] } c := by
  refine ⟨fun h => by simp [compute_category_reward, h], fun h hg => ?_, by rfl⟩
  simp [compute_category_reward, h, hg]

/-- Scenario whose best category also sits in both optional lists, and whose good
and bad lists overlap. -/
def prioScenario : Scenario :=
  { fitness_level := "x"
    time_available := 60
    best_category := "alpha"
    good_categories := some ["alpha", "beta"]
    bad_categories := some ["alpha", "beta"] }

/-- Witness for C10: on a scenario where the lists overlap, the best category is
rewarded 1 and a good-and-bad category is rewarded 1/2. -/
theorem compute_category_reward_priority_witness :
    compute_category_reward prioScenario "alpha" = 1 ∧
    compute_category_reward prioScenario "beta" = 1/2 :=
  ⟨(compute_category_reward_priority prioScenario "alpha").1 rfl,
   (compute_category_reward_priority prioScenario "beta").2.1 (by decide) (by decide)⟩

/-- Python runtime errors the UCB selection could raise: `math.log` on a
nonpositive argument, division by a zero pull count, and `max`/`random.choice`
applied to an empty sequence. -/
inductive UCBError
  | logNonpositive
  | divByZero
  | emptySeq
deriving DecidableEq, Repr

/-- Python `random.choice(l)` driven by an explicit index draw; `none` models the
IndexError raised on an empty list. -/
def randomChoice {α : Type} (l : List α) (i : ℕ) : Option α :=
  l.get? (i % l.length)

/-- `UCBBandit` state (`ucb_selector.py`).  `q_values` is `defaultdict(float)` and
`action_counts` is `defaultdict(int)`, modelled as total functions with default 0
(their key sets are not observable). -/
structure UCBBandit where
  actions : List String
  c : ℚ
  q_values : String → ℚ
  action_counts : String → ℕ
  total_steps : ℕ

/-- `UCBBandit.__init__`. -/
def UCBBandit.create (actions : List String) (c : ℚ) : UCBBandit :=
  { actions := actions
    c := c
    q_values := fun _ => 0
    action_counts := fun _ => 0
    total_steps := 0 }

/-- `UCBBandit.update`: increment the pull count, then move the stored average
toward the reward by `(reward - old_q) / n`. -/
def UCBBandit.update (b : UCBBandit) (action : String) (reward : ℚ) : UCBBandit :=
  let action_counts' : String → ℕ :=
    fun a => if a = action then b.action_counts action + 1 else b.action_counts a
  let n : ℕ := action_counts' action
  let old_q : ℚ := b.q_values action
  { b with
    action_counts := action_counts'
    q_values := fun a =>
      if a = action then old_q + (reward - old_q) / (n : ℚ) else b.q_values a }

/-- Running-mean invariant of `UCBBandit.update`: over any reward list the pull
count grows by the list length and `q_values * count` grows by the reward sum. -/
lemma ucb_update_invariant (b : UCBBandit) (arm : String) (rs : List ℚ) :
    ((rs.foldl (fun s r => s.update arm r) b).action_counts arm
        = b.action_counts arm + rs.length) ∧
    ((rs.foldl (fun s r => s.update arm r) b).q_values arm
          * ((b.action_counts arm : ℚ) + (rs.length : ℚ))
        = b.q_values arm * (b.action_counts arm : ℚ) + rs.sum) := by
  induction rs generalizing b with
  | nil => simp
  | cons r rs ih =>
    simp only [List.foldl_cons]
    obtain ⟨h1, h2⟩ := ih (b.update arm r)
    have hc : (b.update arm r).action_counts arm = b.action_counts arm + 1 := by
      simp [UCBBandit.update]
    have hq : (b.update arm r).q_values arm
        = b.q_values arm + (r - b.q_values arm) / ((b.action_counts arm : ℚ) + 1) := by
      simp [UCBBandit.update]
    refine ⟨by rw [h1, hc]; simp [List.length_cons]; omega, ?_⟩
    rw [hq, hc] at h2
    push_cast [List.length_cons] at h2 ⊢
    have hne : ((b.action_counts arm : ℚ) + 1) ≠ 0 := by positivity
    have e1 : (rs.foldl (fun s r => s.update arm r) (b.update arm r)).q_values arm
          * ((b.action_counts arm : ℚ) + ((rs.length : ℚ) + 1))
        = (rs.foldl (fun s r => s.update arm r) (b.update arm r)).q_values arm
          * ((b.action_counts arm : ℚ) + 1 + (rs.length : ℚ)) := by ring
    rw [List.sum_cons, e1, h2]
    field_simp
    ring

/-- C4: starting from a fresh bandit, after updating one arm with rewards
`r_1..r_n` in order the pull count is `n` and the stored value is the exact
arithmetic mean of the rewards (over rational arithmetic; for `n = 0` both sides
are 0 under the division-by-zero convention). -/
theorem ucb_update_incremental_mean (actions : List String) (c : ℚ) (arm : String)
    (rs : List ℚ) :
    ((rs.foldl (fun b r => b.update arm r) (UCBBandit.create actions c)).action_counts arm
        = rs.length) ∧
    ((rs.foldl (fun b r => b.update arm r) (UCBBandit.create actions c)).q_values arm
        = rs.sum / (rs.length : ℚ)) := by
  obtain ⟨h1, h2⟩ := ucb_update_invariant (UCBBandit.create actions c) arm rs
  rw [show (UCBBandit.create actions c).action_counts arm = 0 from rfl] at h1 h2
  rw [show (UCBBandit.create actions c).q_values arm = 0 from rfl] at h2
  simp only [Nat.cast_zero, zero_add, zero_mul] at h1 h2
  refine ⟨h1, ?_⟩
  rcases eq_or_ne rs [] with rfl | hne
  · simp [UCBBandit.create]
  · have hpos : 0 < rs.length := List.length_pos.mpr hne
    have hq : ((rs.length : ℚ)) ≠ 0 := by exact_mod_cast hpos.ne'
    rw [eq_div_iff hq]
    simpa using h2

/-- Guard for one UCB score evaluation: `math.log(total_steps)` raises on a
nonpositive argument and `/ n_action` raises on a zero pull count, in that
evaluation order.  The transcendental value
`q + c * sqrt(log(total_steps) / n_action)` itself is abstracted by the `score`
parameter, since square roots and logarithms are irrational. -/
def ucb_score_checked (q_value c : ℚ) (total_steps n_action : ℕ)
    (score : ℚ → ℚ → ℕ → ℕ → ℚ) : Except UCBError ℚ :=
  if total_steps = 0 then .error .logNonpositive
  else if n_action = 0 then .error .divByZero
  else .ok (score q_value c total_steps n_action)

/-- The per-action UCB scores computed by `UCBBandit.select_action`, in action
order, propagating the first runtime error. -/
def ucb_score_list (b : UCBBandit) (score : ℚ → ℚ → ℕ → ℕ → ℚ) :
    List String → Except UCBError (List (String × ℚ))
  | [] => .ok []
  | a :: rest => do
    let s ← ucb_score_checked (b.q_values a) b.c b.total_steps (b.action_counts a) score
    let tail ← ucb_score_list b score rest
    return (a, s) :: tail

/-- `UCBBandit.select_action`: increment `total_steps`; return the first action
with zero pulls if any; otherwise score every action and pick a maximizer, ties
broken by `random.choice` (modelled by the `choice` index draw). -/
def UCBBandit.select_action (b0 : UCBBandit) (score : ℚ → ℚ → ℕ → ℕ → ℚ)
    (choice : ℕ) : Except UCBError (String × UCBBandit) :=
  let b := { b0 with total_steps := b0.total_steps + 1 }
  match b.actions.find? (fun a => decide (b.action_counts a = 0)) with
  | some a => .ok (a, b)
  | none => do
    let ucb_scores ← ucb_score_list b score b.actions
    match (ucb_scores.map Prod.snd).max? with
    | none => .error .emptySeq
    | some max_score =>
      let best_actions := (ucb_scores.filter fun p => decide (p.2 = max_score)).map Prod.fst
      match randomChoice best_actions choice with
      | some a => .ok (a, b)
      | none => .error .emptySeq

/-- `List.find?` on a counts predicate returns the head of the first zero-count
suffix. -/
lemma find?_first_zero (counts : String → ℕ) (l1 l2 : List String) (a0 : String)
    (hl1 : ∀ x ∈ l1, counts x ≠ 0) (h0 : counts a0 = 0) :
    (l1 ++ a0 :: l2).find? (fun a => decide (counts a = 0)) = some a0 := by
  induction l1 with
  | nil => simp [List.find?_cons, h0]
  | cons x xs ih =>
    have hx : counts x ≠ 0 := hl1 x (List.mem_cons_self x xs)
    simp only [List.cons_append, List.find?_cons, decide_eq_true_eq]
    simp [hx, ih (fun y hy => hl1 y (List.mem_cons_of_mem x hy))]

/-- C5: when some arm has a zero pull count, `select_action` deterministically
returns the first such arm in the constructor-supplied order, for every score
function and every random draw (the UCB formula and the tie-break randomness are
never consulted); only `total_steps` is incremented. -/
theorem ucb_select_cold_start (b : UCBBandit) (l1 l2 : List String) (a0 : String)
    (hsplit : b.actions = l1 ++ a0 :: l2)
    (hl1 : ∀ x ∈ l1, b.action_counts x ≠ 0)
    (h0 : b.action_counts a0 = 0) :
    ∀ score choice, b.select_action score choice
      = .ok (a0, { b with total_steps := b.total_steps + 1 }) := by
  intro score choice
  have hfind : b.actions.find? (fun a => decide (b.action_counts a = 0)) = some a0 := by
    rw [hsplit]; exact find?_first_zero b.action_counts l1 l2 a0 hl1 h0
  simp only [UCBBandit.select_action]
  rw [show ({ b with total_steps := b.total_steps + 1 } : UCBBandit).actions = b.actions
        from rfl,
      show ({ b with total_steps := b.total_steps + 1 } : UCBBandit).action_counts
          = b.action_counts from rfl,
      hfind]

/-- Concrete bandit mid cold-start: arm "x" pulled once, arm "y" never pulled. -/
def coldBandit : UCBBandit :=
  { actions := ["x", "y"]
    c := 2
    q_values := fun _ => 0
    action_counts := fun a => if a = "x" then 1 else 0
    total_steps := 1 }

/-- Witness for C5: on `coldBandit` the zero-pull arm "y" is returned regardless
of the score function and the draw. -/
theorem ucb_select_cold_start_witness :
    coldBandit.select_action (fun _ _ _ _ => 0) 5
      = .ok ("y", { coldBandit with total_steps := coldBandit.total_steps + 1 }) :=
  ucb_select_cold_start coldBandit ["x"] [] "y" rfl (by decide) (by decide)
    (fun _ _ _ _ => 0) 5

/-- If the total step counter is positive and every listed action has a positive
count, the score sweep raises no error. -/
lemma ucb_score_list_ok (b : UCBBandit) (score : ℚ → ℚ → ℕ → ℕ → ℚ)
    (l : List String) (htotal : b.total_steps ≠ 0)
    (h : ∀ a ∈ l, b.action_counts a ≠ 0) :
    ∃ xs, ucb_score_list b score l = .ok xs := by
  induction l with
  | nil => exact ⟨[], rfl⟩
  | cons a rest ih =>
    obtain ⟨xs, hxs⟩ := ih (fun y hy => h y (List.mem_cons_of_mem a hy))
    have ha : b.action_counts a ≠ 0 := h a (List.mem_cons_self a rest)
    refine ⟨(a, score (b.q_values a) b.c b.total_steps (b.action_counts a)) :: xs, ?_⟩
    simp [ucb_score_list, ucb_score_checked, htotal, ha, hxs, Bind.bind, Except.bind,
      pure, Except.pure]

/-- Every `select_action` call either returns an action or raises the
empty-sequence error; the log/division error branches are unreachable. -/
lemma ucb_select_result (b : UCBBandit) (score : ℚ → ℚ → ℕ → ℕ → ℚ) (choice : ℕ) :
    (∃ p, b.select_action score choice = .ok p) ∨
    b.select_action score choice = .error .emptySeq := by
  simp only [UCBBandit.select_action]
  cases hfind : b.actions.find? (fun a => decide (b.action_counts a = 0)) with
  | some a => exact .inl ⟨_, rfl⟩
  | none =>
    have hall : ∀ a ∈ b.actions, b.action_counts a ≠ 0 := by
      intro a ha
      simpa using List.find?_eq_none.mp hfind a ha
    obtain ⟨xs, hxs⟩ := ucb_score_list_ok
      { b with total_steps := b.total_steps + 1 } score b.actions
      (Nat.succ_ne_zero _) hall
    rw [hxs]
    cases hmax : (xs.map Prod.snd).max? with
    | none => right; simp [Bind.bind, Except.bind, hmax]
    | some m =>
      cases hch : randomChoice ((xs.filter fun p => decide (p.2 = m)).map Prod.fst) choice with
      | none => right; simp [Bind.bind, Except.bind, hmax, hch]
      | some a =>
        left
        refine ⟨(a, { b with total_steps := b.total_steps + 1 }), ?_⟩
        simp [Bind.bind, Except.bind, hmax, hch]

/-- C6: `select_action` can never raise the log-of-nonpositive or
division-by-zero errors of the UCB formula: the step counter is incremented to at
least 1 before scoring, and the scoring phase is only reached when the cold-start
scan found no zero-count arm, so every divisor is at least 1. -/
theorem ucb_select_no_log_div_error (b : UCBBandit) (score : ℚ → ℚ → ℕ → ℕ → ℚ)
    (choice : ℕ) :
    b.select_action score choice ≠ .error .logNonpositive ∧
    b.select_action score choice ≠ .error .divByZero ∧
    (b.actions.find? (fun a => decide (b.action_counts a = 0)) = none →
      1 ≤ b.total_steps + 1 ∧ ∀ a ∈ b.actions, 1 ≤ b.action_counts a) := by
  refine ⟨?_, ?_, fun hnone => ⟨Nat.le_add_left 1 b.total_steps, fun a ha => ?_⟩⟩
  · rcases ucb_select_result b score choice with ⟨p, hp⟩ | hp <;> simp [hp]
  · rcases ucb_select_result b score choice with ⟨p, hp⟩ | hp <;> simp [hp]
  · have := List.find?_eq_none.mp hnone a ha
    simp only [decide_eq_true_eq] at this
    omega

/-- Concrete bandit past cold-start: both arms pulled once. -/
def warmBandit : UCBBandit :=
  { actions := ["x", "y"]
    c := 2
    q_values := fun _ => 0
    action_counts := fun _ => 1
    total_steps := 2 }

/-- Witness for C6: on `warmBandit` (cold-start scan exhausted) no log/division
error is raised and every arm count is at least 1. -/
theorem ucb_select_no_log_div_error_witness :
    warmBandit.select_action (fun _ _ _ _ => 0) 0 ≠ .error .logNonpositive ∧
    (1 ≤ warmBandit.total_steps + 1 ∧ ∀ a ∈ warmBandit.actions, 1 ≤ warmBandit.action_counts a) :=
  ⟨(ucb_select_no_log_div_error warmBandit (fun _ _ _ _ => 0) 0).1,
   (ucb_select_no_log_div_error warmBandit (fun _ _ _ _ => 0) 0).2.2 (by decide)⟩

/-- Lookup in an insertion-ordered association list (Python `dict` access without
default-materialization). -/
def dlookup {κ : Type} [DecidableEq κ] : List (κ × ℚ) → κ → Option ℚ
  | [], _ => none
  | (k, v) :: t, k' => if k = k' then some v else dlookup t k'

/-- The value a `defaultdict(float)` yields for a key: the stored value, or 0. -/
def dval {κ : Type} [DecidableEq κ] (t : List (κ × ℚ)) (k : κ) : ℚ :=
  (dlookup t k).getD 0

/-- A `defaultdict(float)` read: return the stored value, materializing a zero
entry (appended in insertion order) when the key is missing. -/
def dget {κ : Type} [DecidableEq κ] (t : List (κ × ℚ)) (k : κ) : ℚ × List (κ × ℚ) :=
  match dlookup t k with
  | some v => (v, t)
  | none => (0, t ++ [(k, 0)])

/-- A `dict` assignment: overwrite in place when the key exists, else append. -/
def dset {κ : Type} [DecidableEq κ] : List (κ × ℚ) → κ → ℚ → List (κ × ℚ)
  | [], k, v => [(k, v)]
  | (k', w) :: t, k, v =>
    if k' = k then (k', v) :: t else (k', w) :: dset t k v

/-- A present key is looked up in the left part of an append. -/
lemma dlookup_append_of_isSome {κ : Type} [DecidableEq κ] {t : List (κ × ℚ)} {k' : κ}
    (l : List (κ × ℚ)) (h : (dlookup t k').isSome) :
    dlookup (t ++ l) k' = dlookup t k' := by
  induction t with
  | nil => simp [dlookup] at h
  | cons p t ih =>
    obtain ⟨a, w⟩ := p
    by_cases ha : a = k' <;> simp [dlookup, ha] at h ⊢
    exact ih h

/-- An absent key is looked up in the right part of an append. -/
lemma dlookup_append_of_none {κ : Type} [DecidableEq κ] {t : List (κ × ℚ)} {k' : κ}
    (l : List (κ × ℚ)) (h : dlookup t k' = none) :
    dlookup (t ++ l) k' = dlookup l k' := by
  induction t with
  | nil => simp
  | cons p t ih =>
    obtain ⟨a, w⟩ := p
    by_cases ha : a = k' <;> simp [dlookup, ha] at h ⊢
    exact ih h

/-- A materializing read returns the default-extended value. -/
lemma dget_fst {κ : Type} [DecidableEq κ] (t : List (κ × ℚ)) (k : κ) :
    (dget t k).1 = dval t k := by
  unfold dget dval
  cases h : dlookup t k <;> simp [h]

/-- A materializing read changes no key's default-extended value. -/
lemma dget_val {κ : Type} [DecidableEq κ] (t : List (κ × ℚ)) (k k' : κ) :
    dval (dget t k).2 k' = dval t k' := by
  unfold dget
  cases h : dlookup t k with
  | some v => rfl
  | none =>
    by_cases hk : (dlookup t k').isSome
    · simp only [dval, dlookup_append_of_isSome _ hk]
    · have h0 : dlookup t k' = none := Option.not_isSome_iff_eq_none.mp hk
      simp only [dval, dlookup_append_of_none _ h0, h0]
      by_cases he : k = k' <;> simp [dlookup, he]

/-- After a materializing read the key is present. -/
lemma dget_lookup_self {κ : Type} [DecidableEq κ] (t : List (κ × ℚ)) (k : κ) :
    (dlookup (dget t k).2 k).isSome = true := by
  unfold dget
  cases h : dlookup t k with
  | some v => simp [h]
  | none => simp [dlookup_append_of_none _ h, dlookup]

/-- A materializing read preserves key presence. -/
lemma dget_isSome_mono {κ : Type} [DecidableEq κ] {t : List (κ × ℚ)} {k' : κ} (k : κ)
    (h : (dlookup t k').isSome = true) :
    (dlookup (dget t k).2 k').isSome = true := by
  unfold dget
  cases hk : dlookup t k with
  | some v => simpa using h
  | none => simp [dlookup_append_of_isSome _ h, h]

/-- `dset` stores the assigned value at the assigned key. -/
lemma dset_val_self {κ : Type} [DecidableEq κ] (t : List (κ × ℚ)) (k : κ) (v : ℚ) :
    dval (dset t k v) k = v := by
  induction t with
  | nil => simp [dset, dval, dlookup]
  | cons p t ih =>
    obtain ⟨a, w⟩ := p
    by_cases ha : a = k <;> simp [dset, dval, dlookup, ha] <;> simpa [dval] using ih

/-- `dset` changes no other key's default-extended value. -/
lemma dset_val_other {κ : Type} [DecidableEq κ] (t : List (κ × ℚ)) (k k' : κ) (v : ℚ)
    (h : k' ≠ k) :
    dval (dset t k v) k' = dval t k' := by
  have hne : ¬ k = k' := fun hh => h hh.symm
  induction t with
  | nil => simp [dset, dval, dlookup, hne]
  | cons p t ih =>
    obtain ⟨a, w⟩ := p
    by_cases ha : a = k
    · have ha' : ¬ a = k' := by rw [ha]; exact hne
      simp [dset, dval, dlookup, ha, ha', hne, h]
    · by_cases ha2 : a = k'
      · simp [dset, dval, dlookup, ha, ha2, h]
      · simpa [dset, dval, dlookup, ha, ha2] using ih

/-- After `dset` the assigned key is present. -/
lemma dset_isSome_self {κ : Type} [DecidableEq κ] (t : List (κ × ℚ)) (k : κ) (v : ℚ) :
    (dlookup (dset t k v) k).isSome = true := by
  induction t with
  | nil => simp [dset, dlookup]
  | cons p t ih =>
    obtain ⟨a, w⟩ := p
    by_cases ha : a = k <;> simp [dset, dlookup, ha] <;> exact ih

/-- `dset` preserves key presence. -/
lemma dset_isSome_mono {κ : Type} [DecidableEq κ] {t : List (κ × ℚ)} {k' : κ} (k : κ)
    (v : ℚ) (h : (dlookup t k').isSome = true) :
    (dlookup (dset t k v) k').isSome = true := by
  by_cases hk : k' = k
  · subst hk; exact dset_isSome_self t k' v
  · induction t with
    | nil => simp [dlookup] at h
    | cons p t ih =>
      obtain ⟨a, w⟩ := p
      by_cases ha : a = k
      · have ha' : ¬ a = k' := by rw [ha]; exact fun hh => hk hh.symm
        have h2 : (dlookup t k').isSome = true := by simpa [dlookup, ha'] using h
        have hne : ¬ k = k' := fun hh => hk hh.symm
        simp [dset, dlookup, ha, ha', hne, h2]
      · by_cases ha2 : a = k'
        · simp [dset, dlookup, ha, ha2, hk]
        · have h2 : (dlookup t k').isSome = true := by simpa [dlookup, ha2] using h
          simpa [dset, dlookup, ha, ha2] using ih h2

/-- Sequential `defaultdict` reads over a key list (a Python comprehension or
generator over `self.q[(state, a)] for a in self.actions`), threading the
materializations left to right. -/
def dget_list {κ : Type} [DecidableEq κ] (t : List (κ × ℚ)) :
    List κ → List ℚ × List (κ × ℚ)
  | [] => ([], t)
  | k :: rest =>
    let g := dget t k
    let r := dget_list g.2 rest
    (g.1 :: r.1, r.2)

/-- The sequential reads return the default-extended values of the original
table, change no value, and leave every read key (and every previously present
key) materialized. -/
lemma dget_list_spec {κ : Type} [DecidableEq κ] (t : List (κ × ℚ)) (ks : List κ) :
    (dget_list t ks).1 = ks.map (dval t)
    ∧ (∀ k', dval (dget_list t ks).2 k' = dval t k')
    ∧ (∀ k ∈ ks, (dlookup (dget_list t ks).2 k).isSome = true)
    ∧ (∀ k', (dlookup t k').isSome = true → (dlookup (dget_list t ks).2 k').isSome = true) := by
  induction ks generalizing t with
  | nil => exact ⟨rfl, fun _ => rfl, by simp, fun _ h => h⟩
  | cons k rest ih =>
    obtain ⟨ih1, ih2, ih3, ih4⟩ := ih (dget t k).2
    refine ⟨?_, ?_, ?_, ?_⟩
    · simp only [dget_list, List.map_cons]
      rw [ih1, dget_fst]
      congr 1
      exact List.map_congr_left fun x _ => dget_val t k x
    · intro k'
      simp only [dget_list]
      rw [ih2 k', dget_val]
    · intro x hx
      rcases List.mem_cons.mp hx with rfl | hx
      · simp only [dget_list]
        exact ih4 x (dget_lookup_self t x)
      · simp only [dget_list]
        exact ih3 x hx
    · intro k' h
      simp only [dget_list]
      exact ih4 k' (dget_isSome_mono k h)

/-- Python runtime errors of the Q-learning agent and the episode loop. -/
inductive RunError
  | emptySeq
  | loopBound
deriving DecidableEq, Repr

/-- `QLearningAgent` state (`q_learner.py`); the Q-table `defaultdict(float)` is
keyed by `(state, action)` pairs and modelled as an insertion-ordered association
list because its reads materialize entries (observable through
`get_q_table_size`). -/
structure QLearningAgent (σ : Type) where
  actions : List String
  alpha : ℚ
  gamma : ℚ
  epsilon : ℚ
  q : List ((σ × String) × ℚ)

/-- `QLearningAgent.select_action`: with probability epsilon explore uniformly;
otherwise read `Q(state, a)` for every action (materializing reads), take the
maximum, and pick uniformly among the actions achieving it.  `rand` models
`random.random()`; `explore_idx` and `tie_idx` model the two `random.choice`
draws.  The tie-scan re-reads `self.q[(state, a)]`, whose keys were just
materialized, so it sees the threaded table's values. -/
def QLearningAgent.select_action {σ : Type} [DecidableEq σ] (ag : QLearningAgent σ)
    (state : σ) (rand : ℚ) (explore_idx tie_idx : ℕ) :
    Except RunError (String × QLearningAgent σ) :=
  if rand < ag.epsilon then
    match randomChoice ag.actions explore_idx with
    | some a => .ok (a, ag)
    | none => .error .emptySeq
  else
    let r := dget_list ag.q (ag.actions.map fun a => (state, a))
    match r.1.max? with
    | none => .error .emptySeq
    | some max_q =>
      let best_actions := ag.actions.filter fun a => decide (dval r.2 (state, a) = max_q)
      match randomChoice best_actions tie_idx with
      | some a => .ok (a, { ag with q := r.2 })
      | none => .error .emptySeq

/-- `QLearningAgent.update`: `max_next_q` over all actions at the next state
(materializing reads), then the Bellman assignment at `(state, action)` (whose
read also materializes before the write). -/
def QLearningAgent.update {σ : Type} [DecidableEq σ] (ag : QLearningAgent σ)
    (state : σ) (action : String) (reward : ℚ) (next_state : σ) :
    Except RunError (QLearningAgent σ) :=
  let r := dget_list ag.q (ag.actions.map fun a => (next_state, a))
  match r.1.max? with
  | none => .error .emptySeq
  | some max_next_q =>
    let g := dget r.2 (state, action)
    .ok { ag with
          q := (dset g.2 (state, action)
            (g.1 + ag.alpha * (reward + ag.gamma * max_next_q - g.1))) }

/-- C7: `update` succeeds on a nonempty action set and performs exactly the
Bellman assignment: the new `Q(s, a)` is `old + alpha*(r + gamma*maxNextQ - old)`
with `maxNextQ` the maximum stored value (default 0) over the declared actions at
the next state; every `(s', a')` entry is materialized; no other key's value
changes. -/
theorem qlearn_update_spec {σ : Type} [DecidableEq σ] (ag : QLearningAgent σ)
    (s : σ) (a : String) (r : ℚ) (s' : σ) (hne : ag.actions ≠ []) :
    ∃ ag' m, ag.update s a r s' = .ok ag' ∧
      (ag.actions.map fun a' => dval ag.q (s', a')).max? = some m ∧
      (∃ a' ∈ ag.actions, dval ag.q (s', a') = m) ∧
      (∀ a' ∈ ag.actions, dval ag.q (s', a') ≤ m) ∧
      dval ag'.q (s, a)
        = dval ag.q (s, a) + ag.alpha * (r + ag.gamma * m - dval ag.q (s, a)) ∧
      (∀ a' ∈ ag.actions, (dlookup ag'.q (s', a')).isSome = true) ∧
      (∀ k, k ≠ (s, a) → dval ag'.q k = dval ag.q k) := by
  obtain ⟨h1, h2, h3, h4⟩ := dget_list_spec ag.q (ag.actions.map fun x => (s', x))
  have hvals : (dget_list ag.q (ag.actions.map fun x => (s', x))).1
      = ag.actions.map (fun a' => dval ag.q (s', a')) := by
    rw [h1, List.map_map]
    rfl
  have hne2 : (dget_list ag.q (ag.actions.map fun x => (s', x))).1 ≠ [] := by
    rw [hvals]
    simp [hne]
  obtain ⟨m, hm⟩ : ∃ m, (dget_list ag.q (ag.actions.map fun x => (s', x))).1.max? = some m := by
    cases hmax : (dget_list ag.q (ag.actions.map fun x => (s', x))).1.max? with
    | none => exact absurd (List.max?_eq_none_iff.mp hmax) hne2
    | some m => exact ⟨m, rfl⟩
  refine ⟨{ ag with
      q := (dset (dget (dget_list ag.q (ag.actions.map fun x => (s', x))).2 (s, a)).2 (s, a)
        ((dget (dget_list ag.q (ag.actions.map fun x => (s', x))).2 (s, a)).1
          + ag.alpha * (r + ag.gamma * m
              - (dget (dget_list ag.q (ag.actions.map fun x => (s', x))).2 (s, a)).1))) },
    m, ?_, ?_, ?_, ?_, ?_, ?_, ?_⟩
  · simp only [QLearningAgent.update]
    rw [hm]
  · rw [← hvals]
    exact hm
  · have hmem : m ∈ (dget_list ag.q (ag.actions.map fun x => (s', x))).1 :=
      List.max?_mem (fun x y => max_choice x y) hm
    rw [hvals] at hmem
    obtain ⟨a', ha', hv⟩ := List.mem_map.mp hmem
    exact ⟨a', ha', hv⟩
  · intro a' ha'
    have hle : ∀ b ∈ (dget_list ag.q (ag.actions.map fun x => (s', x))).1, b ≤ m :=
      (List.max?_le_iff (fun _ _ _ => max_le_iff) hm).1 (le_refl m)
    refine hle _ ?_
    rw [hvals]
    exact List.mem_map_of_mem _ ha'
  · rw [dset_val_self, dget_fst, h2]
  · intro a' ha'
    have hks : ((s', a') : σ × String) ∈ ag.actions.map fun x => (s', x) :=
      List.mem_map_of_mem _ ha'
    exact dset_isSome_mono _ _ (dget_isSome_mono _ (h3 _ hks))
  · intro k hk
    rw [dset_val_other _ _ _ _ hk, dget_val, h2]

/-- A small concrete Q-learning agent over natural-number states. -/
def qagentSmall : QLearningAgent ℕ :=
  { actions := ["a", "b"]
    alpha := 1/10
    gamma := 9/10
    epsilon := 1/10
    q := [] }

/-- Witness for C7: the Bellman update goes through on a concrete agent with a
nonempty action list. -/
theorem qlearn_update_spec_witness :
    ∃ ag' m, qagentSmall.update 0 "a" 1 1 = .ok ag' ∧
      (qagentSmall.actions.map fun a' => dval qagentSmall.q (1, a')).max? = some m ∧
      (∃ a' ∈ qagentSmall.actions, dval qagentSmall.q (1, a') = m) ∧
      (∀ a' ∈ qagentSmall.actions, dval qagentSmall.q (1, a') ≤ m) ∧
      dval ag'.q (0, "a")
        = dval qagentSmall.q (0, "a")
          + qagentSmall.alpha * (1 + qagentSmall.gamma * m - dval qagentSmall.q (0, "a")) ∧
      (∀ a' ∈ qagentSmall.actions, (dlookup ag'.q (1, a')).isSome = true) ∧
      (∀ k, k ≠ ((0 : ℕ), "a") → dval ag'.q k = dval qagentSmall.q k) :=
  qlearn_update_spec qagentSmall 0 "a" 1 1 (by decide)

/-- `random.choice` on a nonempty list returns a member. -/
lemma randomChoice_of_ne_nil {α : Type} (l : List α) (i : ℕ) (h : l ≠ []) :
    ∃ a, randomChoice l i = some a ∧ a ∈ l := by
  have hpos : 0 < l.length := List.length_pos.mpr h
  have hlt : i % l.length < l.length := Nat.mod_lt _ hpos
  refine ⟨l.get ⟨i % l.length, hlt⟩, ?_, List.get_mem _ _ _⟩
  unfold randomChoice
  exact List.get?_eq_get hlt

/-- Every member of a list is reachable by some `random.choice` draw. -/
lemma randomChoice_reach {α : Type} (l : List α) (b : α) (hb : b ∈ l) :
    ∃ j, randomChoice l j = some b := by
  obtain ⟨n, hn⟩ := List.mem_iff_get.mp hb
  refine ⟨n, ?_⟩
  unfold randomChoice
  rw [Nat.mod_eq_of_lt n.isLt, List.get?_eq_get n.isLt]
  exact congrArg some hn

/-- C8: with `epsilon = 0` and a nonnegative `random.random()` draw, the
exploration branch is never taken; the returned action belongs to the declared
set and attains the maximal stored Q-value at the state, every action's value is
bounded by that maximum, and every maximizer is returned under some tie-break
draw. -/
theorem qlearn_select_greedy {σ : Type} [DecidableEq σ] (ag : QLearningAgent σ)
    (state : σ) (rand : ℚ) (explore_idx tie_idx : ℕ)
    (heps : ag.epsilon = 0) (hrand : 0 ≤ rand) (hne : ag.actions ≠ []) :
    ∃ a ag' m,
      ag.select_action state rand explore_idx tie_idx = .ok (a, ag') ∧
      (ag.actions.map fun b => dval ag.q (state, b)).max? = some m ∧
      a ∈ ag.actions ∧ dval ag.q (state, a) = m ∧
      (∀ b ∈ ag.actions, dval ag.q (state, b) ≤ m) ∧
      (∀ b ∈ ag.actions, dval ag.q (state, b) = m →
        ∃ j ag'', ag.select_action state rand explore_idx j = .ok (b, ag'')) := by
  obtain ⟨h1, h2, h3, h4⟩ := dget_list_spec ag.q (ag.actions.map fun x => (state, x))
  have hvals : (dget_list ag.q (ag.actions.map fun x => (state, x))).1
      = ag.actions.map (fun b => dval ag.q (state, b)) := by
    rw [h1, List.map_map]
    rfl
  have hne2 : (dget_list ag.q (ag.actions.map fun x => (state, x))).1 ≠ [] := by
    rw [hvals]
    simp [hne]
  obtain ⟨m, hm⟩ : ∃ m, (dget_list ag.q (ag.actions.map fun x => (state, x))).1.max? = some m := by
    cases hmax : (dget_list ag.q (ag.actions.map fun x => (state, x))).1.max? with
    | none => exact absurd (List.max?_eq_none_iff.mp hmax) hne2
    | some m => exact ⟨m, rfl⟩
  have hnotlt : ¬ rand < ag.epsilon := by rw [heps]; exact not_lt.mpr hrand
  have hred : ∀ j, ag.select_action state rand explore_idx j
      = match randomChoice (ag.actions.filter fun x =>
            decide (dval (dget_list ag.q (ag.actions.map fun x => (state, x))).2 (state, x) = m)) j with
        | some a =>
          .ok (a, { ag with q := (dget_list ag.q (ag.actions.map fun x => (state, x))).2 })
        | none => .error .emptySeq := by
    intro j
    simp only [QLearningAgent.select_action]
    rw [if_neg hnotlt, hm]
  obtain ⟨b0, hb0, hb0v⟩ : ∃ b ∈ ag.actions, dval ag.q (state, b) = m := by
    have hmem : m ∈ (dget_list ag.q (ag.actions.map fun x => (state, x))).1 :=
      List.max?_mem (fun x y => max_choice x y) hm
    rw [hvals] at hmem
    obtain ⟨b, hb, hv⟩ := List.mem_map.mp hmem
    exact ⟨b, hb, hv⟩
  have hb0f : b0 ∈ ag.actions.filter fun x =>
      decide (dval (dget_list ag.q (ag.actions.map fun x => (state, x))).2 (state, x) = m) := by
    rw [List.mem_filter]
    refine ⟨hb0, ?_⟩
    simp only [decide_eq_true_eq, h2]
    exact hb0v
  obtain ⟨a0, ha0c, ha0m⟩ := randomChoice_of_ne_nil _ tie_idx (List.ne_nil_of_mem hb0f)
  have ha0f := List.mem_filter.mp ha0m
  refine ⟨a0, { ag with q := (dget_list ag.q (ag.actions.map fun x => (state, x))).2 }, m,
    ?_, ?_, ha0f.1, ?_, ?_, ?_⟩
  · rw [hred tie_idx, ha0c]
  · rw [← hvals]
    exact hm
  · have hd := ha0f.2
    simp only [decide_eq_true_eq, h2] at hd
    exact hd
  · intro b hb
    have hle := (List.max?_le_iff (fun _ _ _ => max_le_iff) hm).1 (le_refl m)
    refine hle _ ?_
    rw [hvals]
    exact List.mem_map_of_mem _ hb
  · intro b hb hbm
    have hbf : b ∈ ag.actions.filter fun x =>
        decide (dval (dget_list ag.q (ag.actions.map fun x => (state, x))).2 (state, x) = m) := by
      rw [List.mem_filter]
      refine ⟨hb, ?_⟩
      simp only [decide_eq_true_eq, h2]
      exact hbm
    obtain ⟨j, hj⟩ := randomChoice_reach _ b hbf
    refine ⟨j, { ag with q := (dget_list ag.q (ag.actions.map fun x => (state, x))).2 }, ?_⟩
    rw [hred j, hj]

/-- A concrete greedy agent (`epsilon = 0`). -/
def qagentGreedy : QLearningAgent ℕ :=
  { actions := ["a", "b"]
    alpha := 1/10
    gamma := 9/10
    epsilon := 0
    q := [] }

/-- Witness for C8: the greedy selection goes through on a concrete zero-epsilon
agent with the draw 1/2. -/
theorem qlearn_select_greedy_witness :
    ∃ a ag' m,
      qagentGreedy.select_action 0 (1/2) 0 0 = .ok (a, ag') ∧
      (qagentGreedy.actions.map fun b => dval qagentGreedy.q (0, b)).max? = some m ∧
      a ∈ qagentGreedy.actions ∧ dval qagentGreedy.q (0, a) = m ∧
      (∀ b ∈ qagentGreedy.actions, dval qagentGreedy.q (0, b) ≤ m) ∧
      (∀ b ∈ qagentGreedy.actions, dval qagentGreedy.q (0, b) = m →
        ∃ j ag'', qagentGreedy.select_action 0 (1/2) 0 j = .ok (b, ag'')) :=
  qlearn_select_greedy qagentGreedy 0 (1/2) 0 0 rfl (by norm_num) (by decide)

/-- `randomChoice` only returns members. -/
lemma randomChoice_mem {α : Type} {l : List α} {i : ℕ} {a : α}
    (h : randomChoice l i = some a) : a ∈ l := by
  unfold randomChoice at h
  exact List.get?_mem h

/-- `select_action` succeeds on a nonempty action list, returns a declared
action, and leaves the action list unchanged. -/
lemma qlearn_select_ok {σ : Type} [DecidableEq σ] (ag : QLearningAgent σ) (state : σ)
    (rand : ℚ) (ei ti : ℕ) (hne : ag.actions ≠ []) :
    ∃ a ag', ag.select_action state rand ei ti = .ok (a, ag') ∧ a ∈ ag.actions ∧
      ag'.actions = ag.actions := by
  by_cases hr : rand < ag.epsilon
  · obtain ⟨a, hc, hmem⟩ := randomChoice_of_ne_nil ag.actions ei hne
    refine ⟨a, ag, ?_, hmem, rfl⟩
    simp only [QLearningAgent.select_action]
    rw [if_pos hr, hc]
  · obtain ⟨h1, h2, h3, h4⟩ := dget_list_spec ag.q (ag.actions.map fun x => (state, x))
    obtain ⟨m, hm⟩ : ∃ m, (dget_list ag.q (ag.actions.map fun x => (state, x))).1.max? = some m := by
      cases hmax : (dget_list ag.q (ag.actions.map fun x => (state, x))).1.max? with
      | none =>
        exfalso
        have h0 := List.max?_eq_none_iff.mp hmax
        rw [h1] at h0
        simp [hne] at h0
      | some m => exact ⟨m, rfl⟩
    have hmem : m ∈ (dget_list ag.q (ag.actions.map fun x => (state, x))).1 :=
      List.max?_mem (fun x y => max_choice x y) hm
    rw [h1] at hmem
    obtain ⟨k, hk, hkv⟩ := List.mem_map.mp hmem
    obtain ⟨b, hb, rfl⟩ := List.mem_map.mp hk
    have hbf : b ∈ ag.actions.filter fun x =>
        decide (dval (dget_list ag.q (ag.actions.map fun x => (state, x))).2 (state, x) = m) := by
      rw [List.mem_filter]
      refine ⟨hb, ?_⟩
      simp only [decide_eq_true_eq, h2]
      exact hkv
    obtain ⟨a, hc, hamem⟩ := randomChoice_of_ne_nil _ ti (List.ne_nil_of_mem hbf)
    refine ⟨a, { ag with q := (dget_list ag.q (ag.actions.map fun x => (state, x))).2 },
      ?_, (List.mem_filter.mp hamem).1, rfl⟩
    simp only [QLearningAgent.select_action]
    rw [if_neg hr, hm]
    dsimp only
    rw [hc]

/-- A successful `select_action` preserves the action list and returns a member. -/
lemma qlearn_select_ok_inv {σ : Type} [DecidableEq σ] (ag : QLearningAgent σ)
    (state : σ) (rand : ℚ) (ei ti : ℕ) (a : String) (ag' : QLearningAgent σ)
    (h : ag.select_action state rand ei ti = .ok (a, ag')) :
    ag'.actions = ag.actions ∧ a ∈ ag.actions := by
  simp only [QLearningAgent.select_action] at h
  by_cases hr : rand < ag.epsilon
  · rw [if_pos hr] at h
    cases hc : randomChoice ag.actions ei with
    | none => rw [hc] at h; cases h
    | some b =>
      rw [hc] at h
      cases h
      exact ⟨rfl, randomChoice_mem hc⟩
  · rw [if_neg hr] at h
    cases hm : (dget_list ag.q (ag.actions.map fun x => (state, x))).1.max? with
    | none => rw [hm] at h; cases h
    | some m =>
      rw [hm] at h
      dsimp only at h
      cases hc : randomChoice (ag.actions.filter fun x =>
          decide (dval (dget_list ag.q (ag.actions.map fun x => (state, x))).2 (state, x) = m)) ti with
      | none => rw [hc] at h; cases h
      | some b =>
        rw [hc] at h
        dsimp only at h
        cases h
        exact ⟨rfl, (List.mem_filter.mp (randomChoice_mem hc)).1⟩

/-- `update` succeeds on a nonempty action list and preserves the action list. -/
lemma qlearn_update_ok {σ : Type} [DecidableEq σ] (ag : QLearningAgent σ) (s : σ)
    (a : String) (r : ℚ) (s' : σ) (hne : ag.actions ≠ []) :
    ∃ ag', ag.update s a r s' = .ok ag' ∧ ag'.actions = ag.actions := by
  obtain ⟨h1, h2, h3, h4⟩ := dget_list_spec ag.q (ag.actions.map fun x => (s', x))
  obtain ⟨m, hm⟩ : ∃ m, (dget_list ag.q (ag.actions.map fun x => (s', x))).1.max? = some m := by
    cases hmax : (dget_list ag.q (ag.actions.map fun x => (s', x))).1.max? with
    | none =>
      exfalso
      have h0 := List.max?_eq_none_iff.mp hmax
      rw [h1] at h0
      simp [hne] at h0
    | some m => exact ⟨m, rfl⟩
  refine ⟨{ ag with
      q := (dset (dget (dget_list ag.q (ag.actions.map fun x => (s', x))).2 (s, a)).2 (s, a)
        ((dget (dget_list ag.q (ag.actions.map fun x => (s', x))).2 (s, a)).1
          + ag.alpha * (r + ag.gamma * m
              - (dget (dget_list ag.q (ag.actions.map fun x => (s', x))).2 (s, a)).1))) },
    ?_, rfl⟩
  simp only [QLearningAgent.update]
  rw [hm]

/-- The discrete Q-learning state `(count_bucket, intensity, time, fitness)`. -/
abbrev QState := ℕ × String × String × String

/-- `RLController.actions`: the declared high-level action set. -/
def controller_actions : List String :=
  ["add_strength", "add_cardio", "add_flexibility", "finalize"]

/-- `RLController._get_state`. -/
def controller_get_state (exercises : List Exercise) (exercise_rewards : List ℚ)
    (scenario : Scenario) : QState :=
  let exercise_count := exercises.length
  let count_bucket := if exercise_count ≥ 3 then 3 else exercise_count
  let avg_reward : ℚ :=
    if exercise_rewards ≠ [] then exercise_rewards.sum / (exercise_rewards.length : ℚ)
    else 0
  (count_bucket, get_intensity_level avg_reward,
    get_time_bucket exercise_count scenario.time_available,
    get_fitness_level_bucket scenario.fitness_level)

/-- `RLController._map_action_to_category` (`dict.get(action, None)`). -/
def map_action_to_category (action : String) : Option String :=
  if action = "add_strength" then some "strength"
  else if action = "add_cardio" then some "cardio"
  else if action = "add_flexibility" then some "flexibility"
  else none

/-- The mutable state of the `run_episode` loop.  `step_idx` indexes the
per-iteration random draws, an embedding artifact replacing Python's global
random stream. -/
structure EpisodeState where
  exercises : List Exercise
  exercise_rewards : List ℚ
  done : Bool
  state : QState
  total_reward : ℚ
  total_exercises : ℕ
  bandit : UCBBandit
  qagent : QLearningAgent QState
  step_idx : ℕ

/-- `max_exercises = 6`, the safety limit of `run_episode`. -/
def max_exercises : ℕ := 6

/-- The action-interpretation branch of the loop body (source lines 281-328):
the sextuple is `(step_reward, exercises, exercise_rewards, done,
total_exercises, bandit)` after the branch. -/
def apply_action (scenario : Scenario) (reward_fn : Scenario → String → ℚ)
    (action : String) (st : EpisodeState) :
    ℚ × List Exercise × List ℚ × Bool × ℕ × UCBBandit :=
  if action = "finalize" then
    ((if st.exercises ≠ [] then compute_workout_quality st.exercises scenario else -1),
      st.exercises, st.exercise_rewards, true, st.total_exercises, st.bandit)
  else
    match map_action_to_category action with
    | some category =>
      let exercise := adjust_intensity (select_exercise category scenario.fitness_level)
        (get_intensity_recommendation scenario.fitness_level st.exercises.length)
      let category_reward := reward_fn scenario category
      (category_reward - 1/20, st.exercises ++ [exercise],
        st.exercise_rewards ++ [category_reward], st.done,
        st.total_exercises + 1, st.bandit.update category category_reward)
    | none =>
      (-(1/10), st.exercises, st.exercise_rewards, st.done, st.total_exercises, st.bandit)

/-- One iteration of the `run_episode` while-loop body: select an action,
interpret it, re-encode the state, update the Q-learner, accumulate the reward. -/
def episode_step (scenario : Scenario) (reward_fn : Scenario → String → ℚ)
    (draws : ℕ → ℚ × ℕ × ℕ) (st : EpisodeState) : Except RunError EpisodeState := do
  let d := draws st.step_idx
  let (action, qa1) ← st.qagent.select_action st.state d.1 d.2.1 d.2.2
  let r := apply_action scenario reward_fn action st
  let next_state := controller_get_state r.2.1 r.2.2.1 scenario
  let qa2 ← qa1.update st.state action r.1 next_state
  return { exercises := r.2.1
           exercise_rewards := r.2.2.1
           done := r.2.2.2.1
           state := next_state
           total_reward := st.total_reward + r.1
           total_exercises := r.2.2.2.2.1
           bandit := r.2.2.2.2.2
           qagent := qa2
           step_idx := st.step_idx + 1 }

/-- The `while not done and total_exercises < max_exercises` loop.  `fuel`
bounds the number of modelled iterations; `.error .loopBound` marks an
execution still looping after `fuel` iterations (`max_exercises + 1` always
suffices for the declared action set). -/
def run_loop (scenario : Scenario) (reward_fn : Scenario → String → ℚ)
    (draws : ℕ → ℚ × ℕ × ℕ) : ℕ → EpisodeState → Except RunError EpisodeState
  | fuel, st =>
    if st.done = false ∧ st.total_exercises < max_exercises then
      match fuel with
      | 0 => .error .loopBound
      | f + 1 =>
        (episode_step scenario reward_fn draws st).bind (run_loop scenario reward_fn draws f)
    else .ok st

/-- The initialization of `run_episode` (source lines 268-275). -/
def init_episode_state (bandit : UCBBandit) (qagent : QLearningAgent QState)
    (scenario : Scenario) : EpisodeState :=
  { exercises := []
    exercise_rewards := []
    done := false
    state := controller_get_state [] [] scenario
    total_reward := 0
    total_exercises := 0
    bandit := bandit
    qagent := qagent
    step_idx := 0 }

/-- `RLController.run_episode`, returning `(total_reward, total_exercises)`. -/
def run_episode (bandit : UCBBandit) (qagent : QLearningAgent QState)
    (scenario : Scenario) (reward_fn : Scenario → String → ℚ)
    (draws : ℕ → ℚ × ℕ × ℕ) (fuel : ℕ) : Except RunError (ℚ × ℕ) :=
  (run_loop scenario reward_fn draws fuel (init_episode_state bandit qagent scenario)).map
    fun st => (st.total_reward, st.total_exercises)

/-- Defining equation of `run_loop`. -/
lemma run_loop_eq (scenario : Scenario) (reward_fn : Scenario → String → ℚ)
    (draws : ℕ → ℚ × ℕ × ℕ) (fuel : ℕ) (st : EpisodeState) :
    run_loop scenario reward_fn draws fuel st
      = if st.done = false ∧ st.total_exercises < max_exercises then
          match fuel with
          | 0 => .error .loopBound
          | f + 1 =>
            (episode_step scenario reward_fn draws st).bind (run_loop scenario reward_fn draws f)
        else .ok st := by
  cases fuel <;> rfl

/-- The loop exits immediately when the guard fails. -/
lemma run_loop_stop (scenario : Scenario) (reward_fn : Scenario → String → ℚ)
    (draws : ℕ → ℚ × ℕ × ℕ) (fuel : ℕ) (st : EpisodeState)
    (h : ¬ (st.done = false ∧ st.total_exercises < max_exercises)) :
    run_loop scenario reward_fn draws fuel st = .ok st := by
  rw [run_loop_eq, if_neg h]

/-- The loop executes one body iteration when the guard holds. -/
lemma run_loop_succ (scenario : Scenario) (reward_fn : Scenario → String → ℚ)
    (draws : ℕ → ℚ × ℕ × ℕ) (f : ℕ) (st : EpisodeState)
    (h : st.done = false ∧ st.total_exercises < max_exercises) :
    run_loop scenario reward_fn draws (f + 1) st
      = (episode_step scenario reward_fn draws st).bind (run_loop scenario reward_fn draws f) := by
  rw [run_loop_eq, if_pos h]

/-- The episode state produced by one successful loop iteration that selected
action `a` and updated the Q-learner to `qa2`. -/
def step_result (scenario : Scenario) (reward_fn : Scenario → String → ℚ)
    (a : String) (st : EpisodeState) (qa2 : QLearningAgent QState) : EpisodeState :=
  { exercises := (apply_action scenario reward_fn a st).2.1
    exercise_rewards := (apply_action scenario reward_fn a st).2.2.1
    done := (apply_action scenario reward_fn a st).2.2.2.1
    state := controller_get_state (apply_action scenario reward_fn a st).2.1
      (apply_action scenario reward_fn a st).2.2.1 scenario
    total_reward := st.total_reward + (apply_action scenario reward_fn a st).1
    total_exercises := (apply_action scenario reward_fn a st).2.2.2.2.1
    bandit := (apply_action scenario reward_fn a st).2.2.2.2.2
    qagent := qa2
    step_idx := st.step_idx + 1 }

/-- Forward reduction of the loop body from its two collaborator results. -/
lemma episode_step_mk (scenario : Scenario) (reward_fn : Scenario → String → ℚ)
    (draws : ℕ → ℚ × ℕ × ℕ) (st : EpisodeState) (a : String)
    (qa1 qa2 : QLearningAgent QState)
    (hsel : st.qagent.select_action st.state (draws st.step_idx).1
      (draws st.step_idx).2.1 (draws st.step_idx).2.2 = .ok (a, qa1))
    (hupd : qa1.update st.state a (apply_action scenario reward_fn a st).1
      (controller_get_state (apply_action scenario reward_fn a st).2.1
        (apply_action scenario reward_fn a st).2.2.1 scenario) = .ok qa2) :
    episode_step scenario reward_fn draws st
      = .ok (step_result scenario reward_fn a st qa2) := by
  simp only [episode_step, step_result, Bind.bind, Except.bind, hsel, hupd, pure, Except.pure]

/-- Inversion of a successful loop body iteration. -/
lemma episode_step_cases (scenario : Scenario) (reward_fn : Scenario → String → ℚ)
    (draws : ℕ → ℚ × ℕ × ℕ) (st st' : EpisodeState)
    (h : episode_step scenario reward_fn draws st = .ok st') :
    ∃ a qa1 qa2,
      st.qagent.select_action st.state (draws st.step_idx).1
        (draws st.step_idx).2.1 (draws st.step_idx).2.2 = .ok (a, qa1) ∧
      qa1.update st.state a (apply_action scenario reward_fn a st).1
        (controller_get_state (apply_action scenario reward_fn a st).2.1
          (apply_action scenario reward_fn a st).2.2.1 scenario) = .ok qa2 ∧
      st' = step_result scenario reward_fn a st qa2 := by
  simp only [episode_step, Bind.bind, Except.bind] at h
  cases hsel : st.qagent.select_action st.state (draws st.step_idx).1
      (draws st.step_idx).2.1 (draws st.step_idx).2.2 with
  | error e => rw [hsel] at h; cases h
  | ok p =>
    obtain ⟨a, qa1⟩ := p
    rw [hsel] at h
    dsimp only at h
    cases hupd : qa1.update st.state a (apply_action scenario reward_fn a st).1
        (controller_get_state (apply_action scenario reward_fn a st).2.1
          (apply_action scenario reward_fn a st).2.2.1 scenario) with
    | error e => rw [hupd] at h; cases h
    | ok qa2 =>
      rw [hupd] at h
      dsimp only at h
      cases h
      exact ⟨a, qa1, qa2, rfl, hupd, rfl⟩

/-- The branch interpreter adds at most one exercise. -/
lemma apply_action_total (scenario : Scenario) (reward_fn : Scenario → String → ℚ)
    (action : String) (st : EpisodeState) :
    (apply_action scenario reward_fn action st).2.2.2.2.1 = st.total_exercises ∨
    (apply_action scenario reward_fn action st).2.2.2.2.1 = st.total_exercises + 1 := by
  unfold apply_action
  by_cases hf : action = "finalize"
  · rw [if_pos hf]
    left
    rfl
  · rw [if_neg hf]
    cases hmc : map_action_to_category action with
    | none => left; rfl
    | some c => right; rfl

/-- One successful loop iteration adds at most one exercise. -/
lemma episode_step_total (scenario : Scenario) (reward_fn : Scenario → String → ℚ)
    (draws : ℕ → ℚ × ℕ × ℕ) (st st' : EpisodeState)
    (h : episode_step scenario reward_fn draws st = .ok st') :
    st'.total_exercises ≤ st.total_exercises + 1 := by
  obtain ⟨a, qa1, qa2, hsel, hupd, rfl⟩ := episode_step_cases scenario reward_fn draws st st' h
  rcases apply_action_total scenario reward_fn a st with h1 | h1 <;>
    simp only [step_result, h1] <;> omega

/-- Loop invariant: the exercise count never exceeds `max_exercises`. -/
lemma run_loop_le (scenario : Scenario) (reward_fn : Scenario → String → ℚ)
    (draws : ℕ → ℚ × ℕ × ℕ) :
    ∀ (fuel : ℕ) (st st' : EpisodeState), st.total_exercises ≤ max_exercises →
      run_loop scenario reward_fn draws fuel st = .ok st' →
      st'.total_exercises ≤ max_exercises := by
  intro fuel
  induction fuel with
  | zero =>
    intro st st' hle h
    rw [run_loop_eq] at h
    by_cases hg : st.done = false ∧ st.total_exercises < max_exercises
    · rw [if_pos hg] at h
      cases h
    · rw [if_neg hg] at h
      cases h
      exact hle
  | succ f ih =>
    intro st st' hle h
    by_cases hg : st.done = false ∧ st.total_exercises < max_exercises
    · rw [run_loop_succ scenario reward_fn draws f st hg] at h
      cases hstep : episode_step scenario reward_fn draws st with
      | error e => rw [hstep] at h; cases h
      | ok st'' =>
        rw [hstep] at h
        dsimp only [Except.bind] at h
        have h1 := episode_step_total scenario reward_fn draws st st'' hstep
        exact ih st'' st' (by have h2 := hg.2; simp only [max_exercises] at h2 ⊢; omega) h
    · rw [run_loop_stop scenario reward_fn draws (f + 1) st hg] at h
      cases h
      exact hle

/-- With the declared controller action set, every loop iteration succeeds and
either finalizes the episode or adds exactly one exercise. -/
lemma episode_step_ok (scenario : Scenario) (reward_fn : Scenario → String → ℚ)
    (draws : ℕ → ℚ × ℕ × ℕ) (st : EpisodeState)
    (hact : st.qagent.actions = controller_actions) :
    ∃ st', episode_step scenario reward_fn draws st = .ok st' ∧
      st'.qagent.actions = controller_actions ∧
      (st'.done = true ∨ st'.total_exercises = st.total_exercises + 1) := by
  have hne : st.qagent.actions ≠ [] := by rw [hact]; simp [controller_actions]
  obtain ⟨a, qa1, hsel, hmem, hact1⟩ := qlearn_select_ok st.qagent st.state
    (draws st.step_idx).1 (draws st.step_idx).2.1 (draws st.step_idx).2.2 hne
  have hne1 : qa1.actions ≠ [] := by rw [hact1]; exact hne
  obtain ⟨qa2, hupd, hact2⟩ := qlearn_update_ok qa1 st.state a
    (apply_action scenario reward_fn a st).1
    (controller_get_state (apply_action scenario reward_fn a st).2.1
      (apply_action scenario reward_fn a st).2.2.1 scenario) hne1
  refine ⟨step_result scenario reward_fn a st qa2,
    episode_step_mk scenario reward_fn draws st a qa1 qa2 hsel hupd, ?_, ?_⟩
  · show qa2.actions = controller_actions
    rw [hact2, hact1, hact]
  · rw [hact] at hmem
    simp only [controller_actions, List.mem_cons, List.not_mem_nil, or_false] at hmem
    rcases hmem with rfl | rfl | rfl | rfl
    · right; rfl
    · right; rfl
    · right; rfl
    · left; rfl

/-- With the declared action set and fuel exceeding the remaining exercise
budget, the loop reaches a normal exit. -/
lemma run_loop_ok (scenario : Scenario) (reward_fn : Scenario → String → ℚ)
    (draws : ℕ → ℚ × ℕ × ℕ) :
    ∀ (fuel : ℕ) (st : EpisodeState), st.qagent.actions = controller_actions →
      max_exercises - st.total_exercises < fuel →
      ∃ st', run_loop scenario reward_fn draws fuel st = .ok st' := by
  intro fuel
  induction fuel with
  | zero => intro st _ hfuel; exact absurd hfuel (by omega)
  | succ f ih =>
    intro st hact hfuel
    by_cases hg : st.done = false ∧ st.total_exercises < max_exercises
    · obtain ⟨st', hstep, hact', hdt⟩ := episode_step_ok scenario reward_fn draws st hact
      rcases hdt with hdone | htot
      · refine ⟨st', ?_⟩
        rw [run_loop_succ scenario reward_fn draws f st hg, hstep]
        dsimp only [Except.bind]
        exact run_loop_stop scenario reward_fn draws f st' (by simp [hdone])
      · have hfuel' : max_exercises - st'.total_exercises < f := by
          have h2 := hg.2
          simp only [max_exercises] at *
          omega
        obtain ⟨st2, h2⟩ := ih st' hact' hfuel'
        refine ⟨st2, ?_⟩
        rw [run_loop_succ scenario reward_fn draws f st hg, hstep]
        dsimp only [Except.bind]
        exact h2
    · exact ⟨st, run_loop_stop scenario reward_fn draws (f + 1) st hg⟩

/-- With the declared action set and enough fuel, `run_episode` returns a pair. -/
lemma run_episode_some (bandit : UCBBandit) (qagent : QLearningAgent QState)
    (scenario : Scenario) (reward_fn : Scenario → String → ℚ)
    (draws : ℕ → ℚ × ℕ × ℕ) (fuel : ℕ)
    (hact : qagent.actions = controller_actions) (hfuel : max_exercises < fuel) :
    ∃ r n, run_episode bandit qagent scenario reward_fn draws fuel = .ok (r, n) := by
  obtain ⟨st', h⟩ := run_loop_ok scenario reward_fn draws fuel
    (init_episode_state bandit qagent scenario) hact
    (by simp only [init_episode_state]; omega)
  exact ⟨st'.total_reward, st'.total_exercises, by simp [run_episode, h, Except.map]⟩

/-- C2: whatever the scenario, reward function, random draws and fuel, a
returned episode result carries at most `max_exercises = 6` added exercises:
the loop guard checks `total_exercises < max_exercises` before every iteration
and each iteration adds at most one exercise. -/
theorem run_episode_max_exercises (bandit : UCBBandit) (qagent : QLearningAgent QState)
    (scenario : Scenario) (reward_fn : Scenario → String → ℚ)
    (draws : ℕ → ℚ × ℕ × ℕ) (fuel : ℕ) (r : ℚ) (n : ℕ)
    (h : run_episode bandit qagent scenario reward_fn draws fuel = .ok (r, n)) :
    n ≤ max_exercises := by
  unfold run_episode at h
  cases hl : run_loop scenario reward_fn draws fuel (init_episode_state bandit qagent scenario) with
  | error e => rw [hl] at h; cases h
  | ok st' =>
    rw [hl] at h
    dsimp only [Except.map] at h
    cases h
    exact run_loop_le scenario reward_fn draws fuel
      (init_episode_state bandit qagent scenario) st' (by simp [init_episode_state]) hl

/-- The bandit over the nine exercise categories, as built in `train_rl.main`. -/
def banditRL : UCBBandit :=
  UCBBandit.create ["strength", "cardio", "flexibility", "compound", "isolation",
    "hiit", "plyometric", "yoga", "low_impact"] 2

/-- The Q-learning agent over the controller's four actions, as built in
`train_rl.main`. -/
def qagentRL : QLearningAgent QState :=
  { actions := controller_actions
    alpha := 1/10
    gamma := 9/10
    epsilon := 1/10
    q := [] }

/-- A scenario in the shape of `workout_scenarios.json` records. -/
def scenarioRL : Scenario :=
  { fitness_level := "intermediate"
    time_available := 60
    best_category := "strength"
    good_categories := some ["compound"]
    bad_categories := some ["yoga"] }

/-- Witness for C2: a concrete full-fuel episode returns a count of at most 6. -/
theorem run_episode_max_exercises_witness :
    ∃ r n, run_episode banditRL qagentRL scenarioRL compute_category_reward
        (fun _ => (1, 0, 3)) 7 = .ok (r, n) ∧ n ≤ max_exercises := by
  obtain ⟨r, n, h⟩ := run_episode_some banditRL qagentRL scenarioRL compute_category_reward
    (fun _ => (1, 0, 3)) 7 rfl (by norm_num [max_exercises])
  exact ⟨r, n, h, run_episode_max_exercises banditRL qagentRL scenarioRL
    compute_category_reward (fun _ => (1, 0, 3)) 7 r n h⟩

/-- C3: with the declared four-action set, the episode loop terminates within
`max_exercises + 1` iterations: each iteration either selects `finalize`
(setting the terminal flag) or maps to a valid category and increments the
exercise count, so fuel `max_exercises + 1` always suffices and `run_episode`
returns normally. -/
theorem run_episode_terminates (bandit : UCBBandit) (qagent : QLearningAgent QState)
    (scenario : Scenario) (reward_fn : Scenario → String → ℚ)
    (draws : ℕ → ℚ × ℕ × ℕ) (hact : qagent.actions = controller_actions) :
    ∃ r n, run_episode bandit qagent scenario reward_fn draws (max_exercises + 1)
      = .ok (r, n) :=
  run_episode_some bandit qagent scenario reward_fn draws (max_exercises + 1) hact
    (Nat.lt_succ_self _)

/-- Witness for C3: a concrete episode with fuel `max_exercises + 1` returns. -/
theorem run_episode_terminates_witness :
    ∃ r n, run_episode banditRL qagentRL scenarioRL compute_category_reward
        (fun _ => (1, 0, 3)) (max_exercises + 1) = .ok (r, n) :=
  run_episode_terminates banditRL qagentRL scenarioRL compute_category_reward
    (fun _ => (1, 0, 3)) rfl

/-- C9: selecting `finalize` on an empty exercise list yields the fixed penalty
`-1.0`, adds no exercise, leaves the bandit untouched and sets the terminal
flag; on a non-empty list the finalize step reward is the workout-quality
score instead; and an episode whose first selection is `finalize` returns
`(-1, 0)` (total reward `-1`, zero exercises). -/
theorem finalize_semantics (scenario : Scenario) (reward_fn : Scenario → String → ℚ)
    (st : EpisodeState) :
    (st.exercises = [] →
      apply_action scenario reward_fn "finalize" st
        = (-1, st.exercises, st.exercise_rewards, true, st.total_exercises, st.bandit)) ∧
    (st.exercises ≠ [] →
      apply_action scenario reward_fn "finalize" st
        = (compute_workout_quality st.exercises scenario, st.exercises,
            st.exercise_rewards, true, st.total_exercises, st.bandit)) ∧
    (∀ (bandit : UCBBandit) (qagent : QLearningAgent QState)
        (draws : ℕ → ℚ × ℕ × ℕ) (f : ℕ) (qa1 : QLearningAgent QState),
      qagent.select_action (controller_get_state [] [] scenario)
          (draws 0).1 (draws 0).2.1 (draws 0).2.2 = .ok ("finalize", qa1) →
      run_episode bandit qagent scenario reward_fn draws (f + 1) = .ok (-1, 0)) := by
  refine ⟨fun he => ?_, fun he => ?_, ?_⟩
  · simp [apply_action, he]
  · simp [apply_action, he]
  · intro bandit qagent draws f qa1 hsel
    obtain ⟨hact1, hmem⟩ := qlearn_select_ok_inv qagent (controller_get_state [] [] scenario)
      (draws 0).1 (draws 0).2.1 (draws 0).2.2 "finalize" qa1 hsel
    have hne1 : qa1.actions ≠ [] := by
      rw [hact1]; exact List.ne_nil_of_mem hmem
    obtain ⟨qa2, hupd, hact2⟩ := qlearn_update_ok qa1
      (controller_get_state [] [] scenario) "finalize"
      ((apply_action scenario reward_fn "finalize" (init_episode_state bandit qagent scenario)).1)
      (controller_get_state
        (apply_action scenario reward_fn "finalize" (init_episode_state bandit qagent scenario)).2.1
        (apply_action scenario reward_fn "finalize" (init_episode_state bandit qagent scenario)).2.2.1
        scenario) hne1
    have hsel' : (init_episode_state bandit qagent scenario).qagent.select_action
        (init_episode_state bandit qagent scenario).state
        (draws (init_episode_state bandit qagent scenario).step_idx).1
        (draws (init_episode_state bandit qagent scenario).step_idx).2.1
        (draws (init_episode_state bandit qagent scenario).step_idx).2.2
        = .ok ("finalize", qa1) := hsel
    have hupd' : qa1.update (init_episode_state bandit qagent scenario).state "finalize"
        (apply_action scenario reward_fn "finalize" (init_episode_state bandit qagent scenario)).1
        (controller_get_state
          (apply_action scenario reward_fn "finalize" (init_episode_state bandit qagent scenario)).2.1
          (apply_action scenario reward_fn "finalize" (init_episode_state bandit qagent scenario)).2.2.1
          scenario) = .ok qa2 := hupd
    have hstep := episode_step_mk scenario reward_fn draws
      (init_episode_state bandit qagent scenario) "finalize" qa1 qa2 hsel' hupd'
    have hdone : (step_result scenario reward_fn "finalize"
        (init_episode_state bandit qagent scenario) qa2).done = true := rfl
    have hrun : run_loop scenario reward_fn draws (f + 1)
        (init_episode_state bandit qagent scenario)
        = .ok (step_result scenario reward_fn "finalize"
            (init_episode_state bandit qagent scenario) qa2) := by
      rw [run_loop_succ scenario reward_fn draws f _
        ⟨rfl, by simp [init_episode_state, max_exercises]⟩, hstep]
      dsimp only [Except.bind]
      exact run_loop_stop scenario reward_fn draws f _ (by simp [hdone])
    have h1 : (apply_action scenario reward_fn "finalize"
        (init_episode_state bandit qagent scenario)).1 = -1 := by
      simp [apply_action, init_episode_state]
    simp only [run_episode, hrun, Except.map, step_result]
    rw [show (init_episode_state bandit qagent scenario).total_reward
          + (apply_action scenario reward_fn "finalize"
              (init_episode_state bandit qagent scenario)).1
        = -1 from by rw [h1]; simp [init_episode_state],
      show (apply_action scenario reward_fn "finalize"
          (init_episode_state bandit qagent scenario)).2.2.2.2.1
        = 0 from rfl]

/-- A Q-learning agent whose only declared action is `finalize`. -/
def finalizeAgent : QLearningAgent QState :=
  { actions := ["finalize"]
    alpha := 1/10
    gamma := 9/10
    epsilon := 1/10
    q := [] }

/-- Witness for C9: on a concrete empty-episode state the finalize branch
produces the `-1` penalty sextuple, and a concrete episode whose agent can only
finalize returns `(-1, 0)`. -/
theorem finalize_semantics_witness :
    apply_action scenarioRL compute_category_reward "finalize"
        (init_episode_state banditRL qagentRL scenarioRL)
      = (-1, [], [], true, 0, banditRL) ∧
    ∃ qa1, finalizeAgent.select_action (controller_get_state [] [] scenarioRL) 1 0 0
        = .ok ("finalize", qa1) ∧
      run_episode banditRL finalizeAgent scenarioRL compute_category_reward
        (fun _ => (1, 0, 0)) 1 = .ok (-1, 0) := by
  constructor
  · exact (finalize_semantics scenarioRL compute_category_reward
      (init_episode_state banditRL qagentRL scenarioRL)).1 rfl
  · obtain ⟨a, qa1, hsel, hmem, hact⟩ := qlearn_select_ok finalizeAgent
      (controller_get_state [] [] scenarioRL) 1 0 0 (by simp [finalizeAgent])
    have ha : a = "finalize" := by simpa [finalizeAgent] using hmem
    subst ha
    refine ⟨qa1, hsel, ?_⟩
    exact (finalize_semantics scenarioRL compute_category_reward
      (init_episode_state banditRL finalizeAgent scenarioRL)).2.2 banditRL finalizeAgent
      (fun _ => (1, 0, 0)) 0 qa1 hsel
